import Mathlib

/-!
# Verification of the sonic-pipe core signal chain

Shallow embedding of the sonic-pipe acoustic modem (Rust sources in
`src/protocol.rs`, `src/codec.rs`, `src/modulation.rs`, `src/main.rs`,
`src/lib.rs`) together with proofs of the frozen specification claims.

Conventions of the embedding:
- Rust machine integers (`u8`, `u16`, `u32`, `usize`) are modelled as `Nat`,
  with an explicit `% 2^w` exactly where the Rust code performs a narrowing
  cast, and `Nat` subtraction (truncating at 0) used only where the Rust
  `usize` subtraction is known not to underflow (noted at each site).
- Fallible Rust functions returning `Result<T, SonicPipeError>` are modelled
  as `Except SonicPipeError T`.
- `f32` audio samples and magnitudes are modelled as `ℚ`.  Transcendental
  library functions (`sin`, the Goertzel magnitude built from `cos`/`sqrt`)
  are not computable on `ℚ`; definitions that merely forward samples around
  take the corresponding function as an explicit parameter (`sin2pi` for the
  tone generator, a magnitude oracle `Mag` standing for `self.goertzel` in
  the demodulator).  All control-flow, indexing and framing arithmetic is
  exact; the few `f32` constant computations that feed indices
  (`48000.0 * 0.02`, `48000.0 * 0.005`, sample counts) round to exact
  integers at the fixed 48 kHz rate, and are embedded as the equivalent
  `Nat` expressions.
-/

set_option maxRecDepth 8000

namespace SonicPipe

/-! ## Errors (src/error.rs) -/

/-- Error taxonomy of `SonicPipeError` in `src/error.rs` (payload strings of
the Rust enum are dropped; only the variant matters to any claim). -/
inductive SonicPipeError where
  | audioDevice : SonicPipeError
  | encoding : SonicPipeError
  | decoding : SonicPipeError
  | compression : SonicPipeError
  | errorCorrection : SonicPipeError
  | invalidPacket : SonicPipeError
  | checksumMismatch : SonicPipeError
  | noWakeUpTone : SonicPipeError
  | timeout : SonicPipeError
deriving DecidableEq, Repr

instance {ε α : Type} [DecidableEq ε] [DecidableEq α] : DecidableEq (Except ε α) := fun x y =>
  match x, y with
  | .ok a, .ok b =>
    if h : a = b then .isTrue (by rw [h])
    else .isFalse (fun hh => h (by cases hh; rfl))
  | .error a, .error b =>
    if h : a = b then .isTrue (by rw [h])
    else .isFalse (fun hh => h (by cases hh; rfl))
  | .ok _, .error _ => .isFalse (fun hh => Except.noConfusion hh)
  | .error _, .ok _ => .isFalse (fun hh => Except.noConfusion hh)

/-- Boolean success test on `Except`, mirroring `Result::is_ok`. -/
def isOkE {ε α : Type} : Except ε α → Bool
  | .ok _ => true
  | .error _ => false

/-! ## Byte-order helpers (byteorder crate, big-endian / little-endian) -/

/-- Big-endian bytes of a `u16` (`WriteBytesExt::write_u16::<BigEndian>`). -/
def toBE16 (n : Nat) : List Nat := [n / 256 % 256, n % 256]

/-- Big-endian bytes of a `u32` (`WriteBytesExt::write_u32::<BigEndian>` /
`u32::to_be_bytes`). -/
def toBE32 (n : Nat) : List Nat :=
  [n / 2 ^ 24 % 256, n / 2 ^ 16 % 256, n / 2 ^ 8 % 256, n % 256]

/-- Value of two big-endian bytes (`ReadBytesExt::read_u16::<BigEndian>`). -/
def readBE16 (a b : Nat) : Nat := a * 256 + b

/-- Value of four big-endian bytes (`ReadBytesExt::read_u32::<BigEndian>` /
`u32::from_be_bytes`). -/
def readBE32 (a b c d : Nat) : Nat := ((a * 256 + b) * 256 + c) * 256 + d

/-- Little-endian bytes of a `u32` (the `lz4_flex` size prefix). -/
def toLE32 (n : Nat) : List Nat :=
  [n % 256, n / 2 ^ 8 % 256, n / 2 ^ 16 % 256, n / 2 ^ 24 % 256]

/-- Value of four little-endian bytes. -/
def readLE32 (a b c d : Nat) : Nat := a + 256 * (b + 256 * (c + 256 * d))

/-! ## CRC-32 (crate `crc32fast`, ISO-HDLC polynomial)

`crc32fast::hash` computes the standard reflected CRC-32 with polynomial
`0xEDB88320`, initial value `0xFFFFFFFF` and final XOR `0xFFFFFFFF`; the
per-bit formulation below is the reference definition of that function.
All intermediate values are `u32`; the trailing `% 2 ^ 32` records that the
result is a `u32` (it is semantically a no-op). -/

/-- One bit-step of the reflected CRC-32 with polynomial `0xEDB88320`. -/
def crc32Round (c : Nat) : Nat :=
  if c % 2 = 1 then (c / 2) ^^^ 0xEDB88320 else c / 2

/-- Fold one input byte into the CRC state (8 bit-steps). -/
def crc32UpdateByte (c b : Nat) : Nat :=
  crc32Round (crc32Round (crc32Round (crc32Round
    (crc32Round (crc32Round (crc32Round (crc32Round (c ^^^ b % 256))))))))

/-- The CRC-32 of a byte sequence, as computed by `crc32fast::hash`. -/
def crc32 (data : List Nat) : Nat :=
  ((data.foldl crc32UpdateByte 0xFFFFFFFF) ^^^ 0xFFFFFFFF) % 2 ^ 32

/-! ## Packet (src/protocol.rs) -/
def PROTOCOL_VERSION : Nat := 1

def MAX_PAYLOAD_SIZE : Nat := 1024

def HEADER_SIZE : Nat := 4

/-- The `Packet` struct of `src/protocol.rs`.  Fields `version`, `flags` are
`u8`, `payload_len` is `u16`, `checksum` is `u32`; bytes are `Nat` values
below 256 wherever they originate from Rust `u8` data. -/
structure Packet where
  version : Nat
  payload_len : Nat
  flags : Nat
  payload : List Nat
  checksum : Nat
deriving DecidableEq, Repr

/-- `Packet::new` (src/protocol.rs:19-37): rejects payloads over
`MAX_PAYLOAD_SIZE`, otherwise records the payload length (as `u16`, hence
the `% 2 ^ 16` for the narrowing cast) and the CRC-32 of the payload. -/
def Packet.new (payload : List Nat) : Except SonicPipeError Packet :=
  if payload.length > MAX_PAYLOAD_SIZE then .error .invalidPacket
  else .ok ⟨PROTOCOL_VERSION, payload.length % 2 ^ 16, 0, payload, crc32 payload⟩

/-- The packet value produced by a successful `Packet::new payload`. -/
def mkPacket (payload : List Nat) : Packet :=
  ⟨PROTOCOL_VERSION, payload.length % 2 ^ 16, 0, payload, crc32 payload⟩

/-- `Packet::serialize` (src/protocol.rs:39-49): version byte, big-endian
`payload_len`, flags byte, payload bytes, big-endian CRC-32.  The `% 2 ^ w`
on each field records its Rust machine-integer width. -/
def Packet.serialize (p : Packet) : List Nat :=
  [p.version % 2 ^ 8] ++ toBE16 (p.payload_len % 2 ^ 16) ++ [p.flags % 2 ^ 8]
    ++ p.payload ++ toBE32 (p.checksum % 2 ^ 32)

/-- `Packet::deserialize` (src/protocol.rs:51-86): requires at least 8 bytes,
parses the header, requires the buffer to hold the payload plus a 4-byte
checksum, extracts the payload, reads the big-endian checksum that follows
it, and compares it with the recomputed CRC-32 of the extracted payload. -/
def Packet.deserialize (data : List Nat) : Except SonicPipeError Packet :=
  if data.length < HEADER_SIZE + 4 then .error .invalidPacket
  else
    let version := data.getD 0 0
    let payload_len := readBE16 (data.getD 1 0) (data.getD 2 0)
    let flags := data.getD 3 0
    let payload_start := HEADER_SIZE
    let payload_end := payload_start + payload_len
    if data.length < payload_end + 4 then .error .invalidPacket
    else
      let payload := (data.drop payload_start).take payload_len
      let checksum := readBE32 (data.getD payload_end 0) (data.getD (payload_end + 1) 0)
        (data.getD (payload_end + 2) 0) (data.getD (payload_end + 3) 0)
      if checksum ≠ crc32 payload then .error .checksumMismatch
      else .ok ⟨version, payload_len, flags, payload, checksum⟩

/-! ## Compression (src/codec.rs:8-15, crate lz4_flex)

`compress` and `decompress` in `src/codec.rs` delegate to
`lz4_flex::compress_prepend_size` / `decompress_size_prepended`, whose source
is not part of this repository.  Modelled from the spec (§4.1): `compress`
produces "a length-prefixed LZ4 block (little-endian u32 original length,
then LZ4 block body)", is deterministic, and round-trips.  We realize the
block body as a single literal-only LZ4 sequence — a valid LZ4 block with
exactly the framing the spec fixes — and the decompressor as a faithful
LZ4 block-format decoder (token, extended lengths, literal runs and
overlapping match copies), which checks the decoded size against the prefix
as `decompress_size_prepended` does. -/

/-- Extension bytes of an LZ4 literal/match length that reached the nibble
maximum 15: bytes of value 255 followed by a final byte below 255. -/
def lz4LenBytes (m : Nat) : List Nat := List.replicate (m / 255) 255 ++ [m % 255]

/-- Decode an LZ4 extended length: accumulate bytes, stopping at the first
byte below 255. -/
def lz4ReadLen (acc : Nat) : List Nat → Option (Nat × List Nat)
  | [] => none
  | b :: rest => if b = 255 then lz4ReadLen (acc + 255) rest else some (acc + b, rest)

/-- Copy `k` bytes from distance `offset` back in the output, byte by byte,
extending the output as it goes (LZ4 overlapping match semantics). -/
def lz4CopyMatch (out : List Nat) (offset : Nat) : Nat → List Nat
  | 0 => out
  | k + 1 => lz4CopyMatch (out ++ [out.getD (out.length - offset) 0]) offset k

/-- One pass of the LZ4 block decoder: token, literal run (with extension),
then either end-of-block or a match (2-byte little-endian offset, match
length with extension, minimum match 4).  `fuel` bounds the number of
sequences; each sequence consumes at least the token byte, so
`input.length + 1` fuel always suffices. -/
def lz4DecompressGo : Nat → List Nat → List Nat → Option (List Nat)
  | 0, _, _ => none
  | _ + 1, [], out => some out
  | fuel + 1, token :: rest, out =>
    let litStep : Option (Nat × List Nat) :=
      if token >>> 4 = 15 then lz4ReadLen 15 rest else some (token >>> 4, rest)
    match litStep with
    | none => none
    | some (litLen, rest1) =>
      if rest1.length < litLen then none
      else
        let out1 := out ++ rest1.take litLen
        match rest1.drop litLen with
        | [] => some out1
        | [_] => none
        | o1 :: o2 :: rest2 =>
          let offset := o1 + 256 * o2
          if offset = 0 ∨ out1.length < offset then none
          else
            let mlStep : Option (Nat × List Nat) :=
              if token &&& 15 = 15 then lz4ReadLen 15 rest2 else some (token &&& 15, rest2)
            match mlStep with
            | none => none
            | some (ml, rest3) =>
              lz4DecompressGo fuel rest3 (lz4CopyMatch out1 offset (ml + 4))

/-- Modelled from the spec: the LZ4 block body emitted by `lz4_flex` for the
input, realized as one literal-only sequence (token with literal-length
nibble, extension bytes when the length reaches 15, then the raw bytes). -/
def lz4CompressBlock (x : List Nat) : List Nat :=
  let n := x.length
  if n < 15 then (n <<< 4) :: x
  else (15 <<< 4) :: (lz4LenBytes (n - 15) ++ x)

/-- `compress` (src/codec.rs:8-10): little-endian u32 length prefix followed
by the LZ4 block body (`lz4_flex::compress_prepend_size`).  The `% 2 ^ 32`
records the `usize → u32` narrowing of the prefix. -/
def compress (data : List Nat) : List Nat :=
  toLE32 (data.length % 2 ^ 32) ++ lz4CompressBlock data

/-- `decompress` (src/codec.rs:12-15): read the little-endian u32 size
prefix, decode the LZ4 block, and fail unless the decoded size matches the
prefix (`lz4_flex::decompress_size_prepended`). -/
def decompress (data : List Nat) : Except SonicPipeError (List Nat) :=
  match data with
  | a :: b :: c :: d :: rest =>
    let n := readLE32 a b c d
    match lz4DecompressGo (rest.length + 1) rest [] with
    | some out => if out.length = n then .ok out else .error .compression
    | none => .error .compression
  | _ => .error .compression

/-! ## Reed-Solomon codec (src/codec.rs:17-108, crate reed_solomon_erasure)

`ReedSolomonCodec` wraps `reed_solomon_erasure::galois_8::ReedSolomon` with
`D = 8` data shards and `P = 4` parity shards.  The crate itself is not part
of this repository; its two entry points used here are modelled from the
spec (§4.2): `encode` "computes parity so the full D+P shard set forms a
valid Reed-Solomon codeword" and fails on empty shards, and `reconstruct`
is "a no-op when nothing is missing".  The parity bytes are realized over
GF(2^8) (polynomial 0x11D, the field of the crate) as Vandermonde-style
combinations of the data shards; no theorem below depends on the parity
byte values, because `decode` in src/codec.rs presents every shard as
present, which makes `reconstruct` the no-op branch. -/
def ECC_DATA_SHARDS : Nat := 8

def ECC_PARITY_SHARDS : Nat := 4

/-- Multiplication by x in GF(2^8) with the reduction polynomial 0x11D. -/
def gfXtime (a : Nat) : Nat := if 2 * a < 256 then 2 * a else (2 * a) ^^^ 0x11D

/-- Eight rounds of Russian-peasant multiplication in GF(2^8). -/
def gfMulGo : Nat → Nat → Nat → Nat → Nat
  | 0, _, _, acc => acc
  | k + 1, a, b, acc => gfMulGo k (gfXtime a) (b / 2) (if b % 2 = 1 then acc ^^^ a else acc)

/-- GF(2^8) product. -/
def gfMul (a b : Nat) : Nat := gfMulGo 8 (a % 256) (b % 256) 0

/-- GF(2^8) power. -/
def gfPow (a : Nat) : Nat → Nat
  | 0 => 1
  | n + 1 => gfMul a (gfPow a n)

/-- Modelled from the spec (§4.2 step 4): parity shard `j` of the codeword,
byte `k` being the GF(2^8) combination of byte `k` of every data shard with
Vandermonde coefficients `(i+1)^j`. -/
def rsParityShard (dataShards : List (List Nat)) (s j : Nat) : List Nat :=
  (List.range s).map fun k =>
    (List.range ECC_DATA_SHARDS).foldl
      (fun acc i => acc ^^^ gfMul (gfPow (i + 1) j) ((dataShards.getD i []).getD k 0)) 0

/-- Modelled from the spec: `ReedSolomon::encode` of the reed_solomon_erasure
crate (source not in src/).  It rejects empty shards (`shard_size = 0`) and
otherwise overwrites the last `P` shards with parity so that all `D + P`
shards form a Reed-Solomon codeword. -/
def rsLibEncode (shards : List (List Nat)) (s : Nat) :
    Except SonicPipeError (List (List Nat)) :=
  if s = 0 then .error .errorCorrection
  else .ok (shards.take ECC_DATA_SHARDS ++
    (List.range ECC_PARITY_SHARDS).map (rsParityShard (shards.take ECC_DATA_SHARDS) s))

/-- Data shard `i` as built by `ReedSolomonCodec::encode`
(src/codec.rs:41-51): a `shard_size` slice of the input, zero-padded. -/
def rsDataShard (data : List Nat) (s i : Nat) : List Nat :=
  (data.drop (i * s)).take s ++
    List.replicate (s - ((data.drop (i * s)).take s).length) 0

/-- `ReedSolomonCodec::encode` (src/codec.rs:35-70): slice the input into 8
zero-padded shards of size `ceil(len/8)`, append 4 zero parity shards, let
the library fill the parity, and emit the `original_len`/`shard_size` header
(two big-endian u32, hence the `% 2 ^ 32` narrowings) followed by all shards. -/
def rsEncode (data : List Nat) : Except SonicPipeError (List Nat) :=
  let s := (data.length + ECC_DATA_SHARDS - 1) / ECC_DATA_SHARDS
  let dataShards := (List.range ECC_DATA_SHARDS).map (rsDataShard data s)
  let shards := dataShards ++ (List.range ECC_PARITY_SHARDS).map fun _ => List.replicate s 0
  match rsLibEncode shards s with
  | .error e => .error e
  | .ok allShards =>
    .ok (toBE32 (data.length % 2 ^ 32) ++ (toBE32 (s % 2 ^ 32) ++ allShards.flatten))

/-- Modelled from the spec (§4.2): `ReedSolomon::reconstruct` is "a no-op
when nothing is missing".  `decode` below always presents every shard, so
only that branch is ever reached; reconstruction of missing shards is not
modelled (the other branch conservatively errors and is unreachable from
`decode`). -/
def rsLibReconstruct (shards : List (Option (List Nat))) :
    Except SonicPipeError (List (Option (List Nat))) :=
  if shards.all Option.isSome then .ok shards else .error .errorCorrection

/-- `ReedSolomonCodec::decode` (src/codec.rs:72-107): parse the header,
check the buffer holds all 12 shards, slice them out marking every one as
present, run `reconstruct`, then concatenate the 8 data shards and truncate
to `original_len`. -/
def rsDecode (encoded : List Nat) : Except SonicPipeError (List Nat) :=
  if encoded.length < 8 then .error .errorCorrection
  else
    let original_len := readBE32 (encoded.getD 0 0) (encoded.getD 1 0)
      (encoded.getD 2 0) (encoded.getD 3 0)
    let shard_size := readBE32 (encoded.getD 4 0) (encoded.getD 5 0)
      (encoded.getD 6 0) (encoded.getD 7 0)
    let total := ECC_DATA_SHARDS + ECC_PARITY_SHARDS
    if encoded.length < 8 + total * shard_size then .error .errorCorrection
    else
      let shards : List (Option (List Nat)) := (List.range total).map fun i =>
        some ((encoded.drop (8 + i * shard_size)).take shard_size)
      match rsLibReconstruct shards with
      | .error e => .error e
      | .ok shards2 =>
        .ok ((((shards2.take ECC_DATA_SHARDS).map fun o => o.getD []).flatten).take
          original_len)

/-- The shard size `ceil(len/8)` chosen by `ReedSolomonCodec::encode`. -/
def rsShardSize (x : List Nat) : Nat := (x.length + ECC_DATA_SHARDS - 1) / ECC_DATA_SHARDS

/-- The input zero-padded to a whole number of shards: exactly the
concatenation of the 8 data shards of the encoded block. -/
def rsPadded (x : List Nat) : List Nat :=
  x ++ List.replicate (8 * rsShardSize x - x.length) 0

/-! ## Configuration and constants (src/lib.rs) -/
def SAMPLE_RATE : Nat := 48000

def DEFAULT_SYMBOL_DURATION_MS : Nat := 50

def NUM_TONES : Nat := 16

def WAKE_UP_FREQUENCY : ℚ := 18500

def WAKE_UP_DURATION_MS : Nat := 100

/-- `TransmissionMode` of src/lib.rs. -/
inductive TransmissionMode where
  | audible : TransmissionMode
  | ultrasonic : TransmissionMode
deriving DecidableEq, Repr

def TransmissionMode.base_frequency : TransmissionMode → ℚ
  | .audible => 1000
  | .ultrasonic => 17000

def TransmissionMode.frequency_step : TransmissionMode → ℚ
  | .audible => 100
  | .ultrasonic => 150

/-- `Config` of src/lib.rs; `volume` is an `f32`, modelled as `ℚ`. -/
structure Config where
  mode : TransmissionMode
  symbol_duration_ms : Nat
  sample_rate : Nat
  volume : ℚ
deriving DecidableEq, Repr

/-- `Config::default()`: audible, 50 ms symbols, 48 kHz, volume 0.5. -/
def defaultConfig : Config :=
  ⟨.audible, DEFAULT_SYMBOL_DURATION_MS, SAMPLE_RATE, 1 / 2⟩

/-- The 16-entry frequency table `base + i · step` built by
`MFSKModulator::new` and `MFSKDemodulator::new` (src/modulation.rs:11-17,
83-94). -/
def mfskFrequencies (cfg : Config) : List ℚ :=
  (List.range 16).map fun i : Nat => cfg.mode.base_frequency + (i : ℚ) * cfg.mode.frequency_step

/-! ## MFSK modulator (src/modulation.rs:5-74)

The sample count `(sample_rate as f32 * duration_ms as f32 / 1000.0) as
usize` and the fade width `(sample_rate as f32 * 0.005) as usize` are `f32`
computations; at the fixed 48 kHz rate (and durations up to a few hundred
ms) they are exact and equal the `Nat` expressions below, which is why the
theorems about them carry a `sample_rate = 48000` hypothesis.  The `f32`
sine is abstracted as a function parameter `sin2pi`, with `sin2pi q`
standing for `sin(2π · q)` so that `generate_tone`'s phase argument
`frequency * i / sample_rate` is exact in `ℚ`. -/

/-- Number of samples of a tone of `duration_ms` milliseconds
(src/modulation.rs:21). -/
def numSamples (cfg : Config) (durationMs : Nat) : Nat :=
  cfg.sample_rate * durationMs / 1000

/-- Width in samples of the 5 ms linear fade (src/modulation.rs:28). -/
def fadeSamples (cfg : Config) : Nat := cfg.sample_rate * 5 / 1000

/-- The linear fade factor for sample `i` of an `n`-sample tone with fade
width `fs` (src/modulation.rs:29-35).  The `n - fs` is the Rust `usize`
subtraction, which does not underflow whenever `fs ≤ n` (true for every
duration of at least 5 ms at 48 kHz). -/
def fadeAt (n fs i : Nat) : ℚ :=
  if i < fs then (i : ℚ) / (fs : ℚ)
  else if i > n - fs then ((n - i : Nat) : ℚ) / (fs : ℚ)
  else 1

/-- `MFSKModulator::generate_tone` (src/modulation.rs:20-41):
`sin(2π f i / sample_rate) · volume · fade(i)` for each sample index. -/
def generateTone (cfg : Config) (sin2pi : ℚ → ℚ) (freq : ℚ) (durationMs : Nat) : List ℚ :=
  (List.range (numSamples cfg durationMs)).map fun i : Nat =>
    sin2pi (freq * (i : ℚ) / (cfg.sample_rate : ℚ)) * cfg.volume
      * fadeAt (numSamples cfg durationMs) (fadeSamples cfg) i

/-- `MFSKModulator::generate_wake_up_tone` (src/modulation.rs:43-45). -/
def generateWakeUpTone (cfg : Config) (sin2pi : ℚ → ℚ) : List ℚ :=
  generateTone cfg sin2pi WAKE_UP_FREQUENCY WAKE_UP_DURATION_MS

/-- The 20 ms guard silence length `(sample_rate as f32 * 0.02) as usize`
(src/modulation.rs:52); 960 samples at 48 kHz. -/
def silenceSamples (cfg : Config) : Nat := cfg.sample_rate * 2 / 100

/-- Entry `i` of the modulator's frequency table (`self.frequencies[i]`);
every index used below is a nibble, hence in range of the 16-entry table. -/
def freqAt (cfg : Config) (i : Nat) : ℚ := (mfskFrequencies cfg).getD i 0

/-- `MFSKModulator::modulate` (src/modulation.rs:47-69): wake-up tone, guard
silence, two tones per byte (high nibble `(b >> 4) & 0xF` then low nibble
`b & 0xF`), trailing wake-up tone, accumulated in order. -/
def modulate (cfg : Config) (sin2pi : ℚ → ℚ) (data : List Nat) : List ℚ :=
  (data.foldl (fun acc b =>
      acc ++ generateTone cfg sin2pi (freqAt cfg ((b >>> 4) &&& 15)) cfg.symbol_duration_ms
        ++ generateTone cfg sin2pi (freqAt cfg (b &&& 15)) cfg.symbol_duration_ms)
    (generateWakeUpTone cfg sin2pi ++ List.replicate (silenceSamples cfg) (0 : ℚ)))
    ++ generateWakeUpTone cfg sin2pi

/-! ## MFSK demodulator (src/modulation.rs:76-222)

`goertzel` (src/modulation.rs:96-114) is an `f32` computation built from
`cos` and `sqrt`, not exactly representable over `ℚ`.  The demodulation
control flow — which windows are scanned, how symbols are classified, when
the trailing wake-up ends the frame — consumes the magnitudes only through
comparisons, so the definitions below take the magnitude estimator as an
explicit function parameter `mag`, with `mag window freq` standing for
`self.goertzel(&window, freq)`.  The `f32` threshold literals `0.01` and
`1.5` are written `1/100` and `3/2`. -/

/-- Magnitude oracle standing for the `f32` Goertzel estimator. -/
def Mag : Type := List ℚ → ℚ → ℚ

/-- The `MFSKDemodulator` struct (src/modulation.rs:76-80).  The
`FftPlanner` is an allocation cache touched only by `analyze_spectrum`; its
state is abstracted as a `Nat`. -/
structure MFSKDemodulator where
  config : Config
  frequencies : List ℚ
  fft_planner : Nat

/-- `MFSKDemodulator::new` (src/modulation.rs:83-94); a fresh planner. -/
def MFSKDemodulator.new (cfg : Config) : MFSKDemodulator :=
  ⟨cfg, mfskFrequencies cfg, 0⟩

/-- The half wake-up scan window
`(sample_rate · WAKE_UP_DURATION_MS / 1000 / 2)`, 2400 samples at 48 kHz
(src/modulation.rs:117). -/
def windowSizeHalfWake (cfg : Config) : Nat :=
  cfg.sample_rate * WAKE_UP_DURATION_MS / 1000 / 2

/-- One full wake-up duration in samples, 4800 at 48 kHz
(src/modulation.rs:129). -/
def wakeSamples (cfg : Config) : Nat := cfg.sample_rate * WAKE_UP_DURATION_MS / 1000

/-- The offsets visited by `(0..len.saturating_sub(w)).step_by(step)`
(src/modulation.rs:120): the multiples of `step` strictly below `len - w`
(saturating subtraction). -/
def wakeOffsets (len w step : Nat) : List Nat :=
  (List.range ((len - w + step - 1) / step)).map (· * step)

/-- The trigger test of one scan window (src/modulation.rs:121-128):
`wake_mag > 0.01` and `wake_mag > data_mag · 1.5`, with `data_mag` the fold
of `max` over the 16 data-tone magnitudes starting from 0. -/
def wakeTrigger (d : MFSKDemodulator) (mag : Mag) (samples : List ℚ) (i : Nat) : Bool :=
  let window := (samples.drop i).take (windowSizeHalfWake d.config)
  let wake_mag := mag window WAKE_UP_FREQUENCY
  let data_mag := d.frequencies.foldl (fun a f => if a < mag window f then mag window f else a) 0
  decide (wake_mag > 1 / 100 ∧ wake_mag > data_mag * (3 / 2))

/-- The scan loop of `detect_wake_up`: first triggering offset wins and the
function returns that offset plus a full wake-up duration. -/
def detectWakeUpGo (d : MFSKDemodulator) (mag : Mag) (samples : List ℚ) :
    List Nat → Option Nat
  | [] => none
  | i :: rest =>
    if wakeTrigger d mag samples i then some (i + wakeSamples d.config)
    else detectWakeUpGo d mag samples rest

/-- `MFSKDemodulator::detect_wake_up` (src/modulation.rs:116-135). -/
def detectWakeUp (d : MFSKDemodulator) (mag : Mag) (samples : List ℚ) : Option Nat :=
  detectWakeUpGo d mag samples
    (wakeOffsets samples.length (windowSizeHalfWake d.config)
      (windowSizeHalfWake d.config / 4))

/-- Symbol window length `(sample_rate · symbol_duration_ms / 1000)`
(src/modulation.rs:155). -/
def symbolSamples (cfg : Config) : Nat := cfg.sample_rate * cfg.symbol_duration_ms / 1000

/-- The 20 ms guard skip after sync `(sample_rate · 0.02)`
(src/modulation.rs:156). -/
def guardSkip (cfg : Config) : Nat := cfg.sample_rate * 2 / 100

/-- `MFSKDemodulator::detect_symbol` (src/modulation.rs:137-150): argmax of
the 16 data-tone magnitudes, strict improvement, first index wins ties. -/
def detectSymbol (d : MFSKDemodulator) (mag : Mag) (window : List ℚ) : Nat :=
  (d.frequencies.enum.foldl (fun best pr =>
    let m := mag window pr.2
    if m > best.1 then (m, pr.1) else best) ((0 : ℚ), 0)).2

/-- The trailing wake-up test inside the symbol loop
(src/modulation.rs:164-171), with the comparisons in the source's order. -/
def demodTrigger (d : MFSKDemodulator) (mag : Mag) (window : List ℚ) : Bool :=
  let wake_mag := mag window WAKE_UP_FREQUENCY
  let data_mag := d.frequencies.foldl (fun a f => if a < mag window f then mag window f else a) 0
  decide (wake_mag > data_mag * (3 / 2) ∧ wake_mag > 1 / 100)

/-- The symbol-reading loop of `demodulate` (src/modulation.rs:161-177),
with explicit fuel.  The cursor advances by `symbolSz ≥ 1` each iteration,
so `samples.length + 1` fuel always reaches the loop's own exit; when
`symbolSz = 0` the Rust loop never terminates, which is why the claims
about `demodulate` assume a positive symbol window. -/
def demodLoop (d : MFSKDemodulator) (mag : Mag) (samples : List ℚ) (symbolSz : Nat) :
    Nat → Nat → List Nat → List Nat
  | 0, _, nibbles => nibbles
  | fuel + 1, pos, nibbles =>
    if pos + symbolSz ≤ samples.length then
      if demodTrigger d mag ((samples.drop pos).take symbolSz) then nibbles
      else demodLoop d mag samples symbolSz fuel (pos + symbolSz)
        (nibbles ++ [detectSymbol d mag ((samples.drop pos).take symbolSz)])
    else nibbles

/-- Nibble pairing of `demodulate` (src/modulation.rs:179-184): every
complete pair `(hi, lo)` becomes `(hi << 4) | (lo & 0xF)`; a trailing
unpaired nibble is discarded. -/
def pairNibbles : List Nat → List Nat
  | a :: b :: rest => ((a <<< 4) ||| (b &&& 15)) :: pairNibbles rest
  | _ => []

/-- `MFSKDemodulator::demodulate` (src/modulation.rs:152-191).  The method
takes `&mut self`; the embedding returns the output together with the
post-call demodulator state, and the body writes no field. -/
def demodulate (d : MFSKDemodulator) (mag : Mag) (samples : List ℚ) :
    Option (List Nat) × MFSKDemodulator :=
  match detectWakeUp d mag samples with
  | none => (none, d)
  | some start_pos =>
    let nibbles := demodLoop d mag samples (symbolSamples d.config) (samples.length + 1)
      (start_pos + guardSkip d.config) []
    let data := pairNibbles nibbles
    (if data = [] then none else some data, d)

/-- Oracle under which every window's wake magnitude is 1 and every
data-tone magnitude is 0, so that every examined window triggers. -/
def magWakeOnly : Mag := fun _ f => if f = WAKE_UP_FREQUENCY then 1 else 0

/-! ## The sender pipeline (src/main.rs:145-171) -/

/-- The signal-chain part of `send_data` (src/main.rs:145-171):
`compress → ReedSolomonCodec::encode → Packet::new → serialize → modulate`.
Audio playback is the external collaborator and is outside the core. -/
def sendPipeline (cfg : Config) (sin2pi : ℚ → ℚ) (data : List Nat) :
    Except SonicPipeError (List ℚ) :=
  match rsEncode (compress data) with
  | .error e => .error e
  | .ok encoded =>
    match Packet.new encoded with
    | .error e => .error e
    | .ok packet => .ok (modulate cfg sin2pi packet.serialize)

/-- A concrete 1024-byte payload with no repeated 4-byte substring (the
16-bit big-endian counter sequence), which an LZ4 compressor cannot shrink:
the modelled literal-only block, like `lz4_flex` on match-free input, is
longer than the input. -/
def x1024 : List Nat := (List.range 512).flatMap fun k => [k / 256, k % 256]

/-! ## Theorems -/

theorem readBE16_toBE16 (n : Nat) (h : n < 2 ^ 16) :
    readBE16 (n / 256 % 256) (n % 256) = n := by
  unfold readBE16
  omega

theorem readBE32_toBE32 (n : Nat) (h : n < 2 ^ 32) :
    readBE32 (n / 2 ^ 24 % 256) (n / 2 ^ 16 % 256) (n / 2 ^ 8 % 256) (n % 256) = n := by
  unfold readBE32
  omega

theorem readLE32_toLE32 (n : Nat) (h : n < 2 ^ 32) :
    readLE32 (n % 256) (n / 2 ^ 8 % 256) (n / 2 ^ 16 % 256) (n / 2 ^ 24 % 256) = n := by
  unfold readLE32
  omega

/-! ## List access helpers -/
theorem listGetD_append_left {α : Type} (l l' : List α) (k : Nat) (d : α)
    (h : k < l.length) : (l ++ l').getD k d = l.getD k d := by
  induction l generalizing k with
  | nil => simp at h
  | cons a t ih =>
    cases k with
    | zero => rfl
    | succ k => simpa using ih k (by simpa using h)

theorem listGetD_append_right {α : Type} (l l' : List α) (k : Nat) (d : α) :
    (l ++ l').getD (l.length + k) d = l'.getD k d := by
  induction l with
  | nil => simp
  | cons a t ih => simpa [Nat.succ_add] using ih

theorem listTake_append_length {α : Type} (l l' : List α) :
    (l ++ l').take l.length = l := by
  induction l with
  | nil => rfl
  | cons a t ih => simp [ih]

theorem listDrop_append_length {α : Type} (l l' : List α) :
    (l ++ l').drop l.length = l' := by
  induction l with
  | nil => rfl
  | cons a t ih => simp [ih]

theorem crc32_lt (data : List Nat) : crc32 data < 2 ^ 32 :=
  Nat.mod_lt _ (by norm_num)

theorem Packet_new_ok (payload : List Nat) (h : payload.length ≤ MAX_PAYLOAD_SIZE) :
    Packet.new payload = .ok (mkPacket payload) := by
  unfold Packet.new mkPacket
  rw [if_neg (by omega)]

theorem listGetD_cons4 {α : Type} (a b c d : α) (t : List α) (m : Nat) (x : α) :
    (a :: b :: c :: d :: t).getD (4 + m) x = t.getD m x := by
  show (([a, b, c, d] : List α) ++ t).getD ([a, b, c, d].length + m) x = t.getD m x
  exact listGetD_append_right _ _ _ _

/-- Key computation: `Packet::deserialize` applied to a well-formed serialized
packet followed by arbitrary trailing bytes recovers exactly the packet's
fields; the trailing bytes are never inspected. -/
theorem deserialize_shape (x1 x2 n c : Nat) (payload rest2 : List Nat)
    (hn : readBE16 x1 x2 = n) (hnp : payload.length = n)
    (hc : c < 2 ^ 32) (hcrc : c = crc32 payload) :
    Packet.deserialize (1 :: x1 :: x2 :: 0 :: (payload ++ toBE32 c ++ rest2)) =
      .ok ⟨1, n, 0, payload, c⟩ := by
  have hlen : (1 :: x1 :: x2 :: 0 :: (payload ++ toBE32 c ++ rest2)).length
      = 8 + n + rest2.length := by
    simp [toBE32, hnp]
    omega
  have htail : payload ++ toBE32 c ++ rest2 = payload ++ (toBE32 c ++ rest2) := by
    simp
  have hpay : ((1 :: x1 :: x2 :: 0 :: (payload ++ toBE32 c ++ rest2)).drop HEADER_SIZE).take n
      = payload := by
    show (payload ++ toBE32 c ++ rest2).take n = payload
    rw [htail, ← hnp, listTake_append_length]
  have hget : ∀ k, k < 4 →
      (1 :: x1 :: x2 :: 0 :: (payload ++ toBE32 c ++ rest2)).getD (HEADER_SIZE + n + k) 0
        = (toBE32 c).getD k 0 := by
    intro k hk
    show (1 :: x1 :: x2 :: 0 :: (payload ++ toBE32 c ++ rest2)).getD (4 + n + k) 0
        = (toBE32 c).getD k 0
    rw [Nat.add_assoc, listGetD_cons4, htail, ← hnp, listGetD_append_right,
      listGetD_append_left]
    simpa [toBE32] using hk
  have hcs : readBE32
      ((1 :: x1 :: x2 :: 0 :: (payload ++ toBE32 c ++ rest2)).getD (HEADER_SIZE + n) 0)
      ((1 :: x1 :: x2 :: 0 :: (payload ++ toBE32 c ++ rest2)).getD (HEADER_SIZE + n + 1) 0)
      ((1 :: x1 :: x2 :: 0 :: (payload ++ toBE32 c ++ rest2)).getD (HEADER_SIZE + n + 2) 0)
      ((1 :: x1 :: x2 :: 0 :: (payload ++ toBE32 c ++ rest2)).getD (HEADER_SIZE + n + 3) 0)
      = c := by
    have h0 := hget 0 (by omega)
    have h1 := hget 1 (by omega)
    have h2 := hget 2 (by omega)
    have h3 := hget 3 (by omega)
    rw [Nat.add_zero] at h0
    rw [h0, h1, h2, h3]
    show readBE32 (c / 2 ^ 24 % 256) (c / 2 ^ 16 % 256) (c / 2 ^ 8 % 256) (c % 256) = c
    exact readBE32_toBE32 c hc
  unfold Packet.deserialize
  rw [if_neg (by rw [hlen]; unfold HEADER_SIZE; omega)]
  simp only
  rw [show (1 :: x1 :: x2 :: 0 :: (payload ++ toBE32 c ++ rest2)).getD 0 0 = 1 from rfl,
    show (1 :: x1 :: x2 :: 0 :: (payload ++ toBE32 c ++ rest2)).getD 1 0 = x1 from rfl,
    show (1 :: x1 :: x2 :: 0 :: (payload ++ toBE32 c ++ rest2)).getD 2 0 = x2 from rfl,
    show (1 :: x1 :: x2 :: 0 :: (payload ++ toBE32 c ++ rest2)).getD 3 0 = 0 from rfl,
    hn]
  rw [if_neg (by rw [hlen]; unfold HEADER_SIZE; omega)]
  rw [hpay, hcs, if_neg (by rw [hcrc]; exact fun hh => hh rfl)]

/-- Serialization of the packet built by `Packet::new` in explicit byte form. -/
theorem serialize_mkPacket (payload : List Nat) (h : payload.length ≤ MAX_PAYLOAD_SIZE) :
    (mkPacket payload).serialize =
      1 :: (payload.length / 256 % 256) :: (payload.length % 256) :: 0 ::
        (payload ++ toBE32 (crc32 payload)) := by
  have h16 : payload.length % 2 ^ 16 = payload.length :=
    Nat.mod_eq_of_lt (by unfold MAX_PAYLOAD_SIZE at h; omega)
  have hc : crc32 payload % 2 ^ 32 = crc32 payload := Nat.mod_eq_of_lt (crc32_lt payload)
  unfold mkPacket Packet.serialize toBE16
  simp only [h16, hc]
  rfl

/-- Combination lemma: deserializing a serialized fresh packet plus arbitrary
trailing bytes yields the packet back. -/
theorem deserialize_serialize_append (payload extra : List Nat)
    (h : payload.length ≤ MAX_PAYLOAD_SIZE) :
    Packet.deserialize ((mkPacket payload).serialize ++ extra) = .ok (mkPacket payload) := by
  have h16 : payload.length % 2 ^ 16 = payload.length :=
    Nat.mod_eq_of_lt (by unfold MAX_PAYLOAD_SIZE at h; omega)
  rw [serialize_mkPacket payload h]
  have h16' : payload.length % 65536 = payload.length := by
    unfold MAX_PAYLOAD_SIZE at h
    omega
  have := deserialize_shape (payload.length / 256 % 256) (payload.length % 256)
    payload.length (crc32 payload) payload extra
    (readBE16_toBE16 payload.length (by unfold MAX_PAYLOAD_SIZE at h; omega)) rfl
    (crc32_lt payload) rfl
  simpa [mkPacket, PROTOCOL_VERSION, h16'] using this

/-- Claim C4: for every payload with `0 ≤ len ≤ 1024`, `Packet::new` succeeds,
`Packet::deserialize (Packet::serialize (Packet::new payload))` succeeds, and
the resulting packet's payload equals the original payload while its checksum
field equals the CRC-32 of the payload. -/
theorem c4_packet_roundtrip (payload : List Nat) (h : payload.length ≤ 1024) :
    Packet.new payload = .ok (mkPacket payload) ∧
    Packet.deserialize (mkPacket payload).serialize = .ok (mkPacket payload) ∧
    (mkPacket payload).payload = payload ∧
    (mkPacket payload).checksum = crc32 payload := by
  have h' : payload.length ≤ MAX_PAYLOAD_SIZE := by unfold MAX_PAYLOAD_SIZE; omega
  refine ⟨Packet_new_ok payload h', ?_, rfl, rfl⟩
  have := deserialize_serialize_append payload [] h'
  simpa using this

/-- Witness for C4 at the concrete two-byte payload `[72, 105]`. -/
theorem c4_packet_roundtrip_witness :
    ([72, 105] : List Nat).length ≤ 1024 ∧
    (Packet.new [72, 105] = .ok (mkPacket [72, 105]) ∧
     Packet.deserialize (mkPacket [72, 105]).serialize = .ok (mkPacket [72, 105]) ∧
     (mkPacket [72, 105]).payload = [72, 105] ∧
     (mkPacket [72, 105]).checksum = crc32 [72, 105]) :=
  ⟨by decide, c4_packet_roundtrip [72, 105] (by decide)⟩

/-- Claim C9: `Packet::deserialize` ignores bytes after the checksum — for any
packet produced by `Packet::new` and any trailing byte sequence `extra`,
deserializing `serialize(p) ++ extra` succeeds and returns a packet with
exactly the same fields as `p`. -/
theorem c9_deserialize_ignores_trailing (payload extra : List Nat)
    (h : payload.length ≤ 1024) :
    Packet.deserialize ((mkPacket payload).serialize ++ extra) = .ok (mkPacket payload) :=
  deserialize_serialize_append payload extra (by unfold MAX_PAYLOAD_SIZE; omega)

/-- Witness for C9: payload `[7]` with trailing junk `[9, 9, 9]`. -/
theorem c9_deserialize_ignores_trailing_witness :
    ([7] : List Nat).length ≤ 1024 ∧
    Packet.deserialize ((mkPacket [7]).serialize ++ [9, 9, 9]) = .ok (mkPacket [7]) :=
  ⟨by decide, c9_deserialize_ignores_trailing [7] [9, 9, 9] (by decide)⟩

theorem lz4ReadLen_lenBytes (m acc : Nat) (rest : List Nat) :
    lz4ReadLen acc (lz4LenBytes m ++ rest) = some (acc + m, rest) := by
  unfold lz4LenBytes
  generalize hq : m / 255 = q
  induction q generalizing m acc with
  | zero =>
    have hm : m % 255 = m := by omega
    show lz4ReadLen acc (m % 255 :: rest) = some (acc + m, rest)
    simp only [lz4ReadLen]
    rw [hm, if_neg (by omega)]
  | succ k ih =>
    rw [List.replicate_succ, List.cons_append]
    simp only [lz4ReadLen, if_true, List.append_eq, List.append_assoc]
    have hq' : (m - 255) / 255 = k := by omega
    have hm' : (m - 255) % 255 = m % 255 := by omega
    have hih := ih (m - 255) (acc + 255) hq'
    rw [hm', show acc + 255 + (m - 255) = acc + m from by omega] at hih
    simpa using hih

theorem compress_length (x : List Nat) :
    (compress x).length =
      (if x.length < 15 then 5 + x.length else 6 + (x.length - 15) / 255 + x.length) := by
  unfold compress lz4CompressBlock toLE32 lz4LenBytes
  by_cases h : x.length < 15
  · simp only [if_pos h]
    simp
    omega
  · simp only [if_neg h]
    simp
    omega

/-- Claim C5: for every byte sequence `x` (whose length fits the u32 size
prefix), `decompress (compress x)` succeeds and returns `x`, and `compress`
is deterministic: equal inputs give equal outputs. -/
theorem decompress_cons (a b c d : Nat) (rest : List Nat) :
    decompress (a :: b :: c :: d :: rest) =
      match lz4DecompressGo (rest.length + 1) rest [] with
      | some out =>
        if out.length = readLE32 a b c d then .ok out else .error .compression
      | none => .error .compression := rfl

theorem shiftLeft4_shiftRight4 (n : Nat) : (n <<< 4) >>> 4 = n := by
  simp [Nat.shiftLeft_eq, Nat.shiftRight_eq_div_pow]

theorem c5_compress_roundtrip (x y : List Nat) (hx : x.length < 2 ^ 32) (hxy : x = y) :
    decompress (compress x) = .ok x ∧ compress x = compress y := by
  refine ⟨?_, by rw [hxy]⟩
  have hmod : x.length % 2 ^ 32 = x.length := Nat.mod_eq_of_lt hx
  have hcomp : compress x = (x.length % 256) :: (x.length / 2 ^ 8 % 256)
      :: (x.length / 2 ^ 16 % 256) :: (x.length / 2 ^ 24 % 256) :: lz4CompressBlock x := by
    unfold compress toLE32
    rw [hmod]
    simp
  rw [hcomp, decompress_cons, readLE32_toLE32 x.length hx]
  by_cases h : x.length < 15
  · have hblock : lz4CompressBlock x = (x.length <<< 4) :: x := by
      unfold lz4CompressBlock
      rw [if_pos h]
    have hgo : ∀ f : Nat, lz4DecompressGo (f + 1) ((x.length <<< 4) :: x) [] = some x := by
      intro f
      cases x with
      | nil => rfl
      | cons a t =>
        simp only [lz4DecompressGo, shiftLeft4_shiftRight4]
        rw [if_neg (by omega)]
        simp only
        rw [if_neg (by omega)]
        simp only [List.take_length, List.drop_length, List.nil_append]
    have hblen : (lz4CompressBlock x).length = x.length + 1 := by
      rw [hblock]
      simp
    rw [hblen, hblock, hgo (x.length + 1)]
    simp
  · have hblock : lz4CompressBlock x = (15 <<< 4) :: (lz4LenBytes (x.length - 15) ++ x) := by
      unfold lz4CompressBlock
      rw [if_neg h]
    have hgo : ∀ f : Nat, lz4DecompressGo (f + 1)
        ((15 <<< 4) :: (lz4LenBytes (x.length - 15) ++ x)) [] = some x := by
      intro f
      simp only [lz4DecompressGo]
      rw [show ((15 : Nat) <<< 4) >>> 4 = 15 from by decide, if_pos rfl, lz4ReadLen_lenBytes]
      simp only
      rw [show 15 + (x.length - 15) = x.length from by omega]
      rw [if_neg (by omega)]
      simp only [List.take_length, List.drop_length, List.nil_append]
    have hblen : (lz4CompressBlock x).length = (lz4LenBytes (x.length - 15) ++ x).length + 1 := by
      rw [hblock]
      simp
    rw [hblen, hblock, hgo ((lz4LenBytes (x.length - 15) ++ x).length + 1)]
    simp

/-- Witness for C5 at the concrete input `[1, 2, 3]`. -/
theorem c5_compress_roundtrip_witness :
    ([1, 2, 3] : List Nat).length < 2 ^ 32 ∧ ([1, 2, 3] : List Nat) = [1, 2, 3] ∧
    (decompress (compress [1, 2, 3]) = .ok [1, 2, 3] ∧ compress [1, 2, 3] = compress [1, 2, 3]) :=
  ⟨by decide, rfl, c5_compress_roundtrip [1, 2, 3] [1, 2, 3] (by decide) rfl⟩

theorem listDrop_append_right {α : Type} (l l' : List α) (k : Nat) :
    (l ++ l').drop (l.length + k) = l'.drop k := by
  induction l with
  | nil => simp
  | cons a t ih => simp [Nat.succ_add, ih]

theorem listDrop_cons8 {α : Type} (c0 c1 c2 c3 c4 c5 c6 c7 : α) (t : List α) (m : Nat) :
    (c0 :: c1 :: c2 :: c3 :: c4 :: c5 :: c6 :: c7 :: t).drop (8 + m) = t.drop m := by
  have := listDrop_append_right ([c0, c1, c2, c3, c4, c5, c6, c7] : List α) t m
  simpa using this

theorem flatten_slices (M : List Nat) (s : Nat) :
    ∀ k, k * s ≤ M.length →
      ((List.range k).map fun i => (M.drop (i * s)).take s).flatten = M.take (k * s) := by
  intro k
  induction k with
  | zero => simp
  | succ k ih =>
    intro hk
    rw [List.range_succ, List.map_append, List.flatten_append]
    rw [ih (Nat.le_trans (Nat.mul_le_mul_right s (Nat.le_succ k)) hk)]
    simp only [List.map_cons, List.map_nil, List.flatten_cons, List.flatten_nil,
      List.append_nil]
    rw [Nat.succ_mul, List.take_add]

theorem rsShardSize_bounds (x : List Nat) :
    x.length ≤ 8 * rsShardSize x ∧ (x ≠ [] → 1 ≤ rsShardSize x) := by
  unfold rsShardSize ECC_DATA_SHARDS
  constructor
  · omega
  · intro hx
    have : 0 < x.length := List.length_pos.mpr hx
    omega

theorem rsPadded_length (x : List Nat) : (rsPadded x).length = 8 * rsShardSize x := by
  unfold rsPadded
  have h := (rsShardSize_bounds x).1
  simp
  omega

theorem rsDataShard_eq_padded_slice (x : List Nat) (i : Nat) (hi : i < 8) :
    rsDataShard x (rsShardSize x) i
      = ((rsPadded x).drop (i * rsShardSize x)).take (rsShardSize x) := by
  have hxs := (rsShardSize_bounds x).1
  have hmul : i * rsShardSize x ≤ 7 * rsShardSize x :=
    Nat.mul_le_mul_right _ (by omega)
  unfold rsDataShard rsPadded
  rw [List.drop_append_eq_append_drop, List.take_append_eq_append_take]
  rw [List.drop_replicate, List.take_replicate]
  congr 1
  congr 1
  rw [List.length_take, List.length_drop]
  rw [Nat.min_def, Nat.min_def]
  split_ifs <;> omega

theorem rsDataShards_flatten (x : List Nat) :
    ((List.range 8).map (rsDataShard x (rsShardSize x))).flatten = rsPadded x := by
  have hmap : (List.range 8).map (rsDataShard x (rsShardSize x))
      = (List.range 8).map fun i =>
          ((rsPadded x).drop (i * rsShardSize x)).take (rsShardSize x) := by
    refine List.map_congr_left fun i hi => ?_
    exact rsDataShard_eq_padded_slice x i (List.mem_range.mp hi)
  rw [hmap, flatten_slices _ _ 8 (by rw [rsPadded_length])]
  rw [← rsPadded_length x, List.take_length]

/-- Internal shape of `rsDecode` on a well-formed block: header bytes, then
`rest` holding all 12 shards; the decoded output is the first
`original_len` bytes of the data-shard region, and the last `4·s` bytes of
`rest` (the parity region) are never used. -/
theorem rsDecode_shape (a0 a1 a2 a3 b0 b1 b2 b3 n s : Nat) (rest : List Nat)
    (hn : readBE32 a0 a1 a2 a3 = n) (hs : readBE32 b0 b1 b2 b3 = s)
    (hrest : rest.length = 12 * s) (hn8 : n ≤ 8 * s) :
    rsDecode (a0 :: a1 :: a2 :: a3 :: b0 :: b1 :: b2 :: b3 :: rest) = .ok (rest.take n) := by
  unfold rsDecode
  have hlen : (a0 :: a1 :: a2 :: a3 :: b0 :: b1 :: b2 :: b3 :: rest).length
      = 8 + rest.length := by
    simp
    omega
  rw [if_neg (by omega)]
  simp only
  rw [show (a0 :: a1 :: a2 :: a3 :: b0 :: b1 :: b2 :: b3 :: rest).getD 0 0 = a0 from rfl,
    show (a0 :: a1 :: a2 :: a3 :: b0 :: b1 :: b2 :: b3 :: rest).getD 1 0 = a1 from rfl,
    show (a0 :: a1 :: a2 :: a3 :: b0 :: b1 :: b2 :: b3 :: rest).getD 2 0 = a2 from rfl,
    show (a0 :: a1 :: a2 :: a3 :: b0 :: b1 :: b2 :: b3 :: rest).getD 3 0 = a3 from rfl,
    show (a0 :: a1 :: a2 :: a3 :: b0 :: b1 :: b2 :: b3 :: rest).getD 4 0 = b0 from rfl,
    show (a0 :: a1 :: a2 :: a3 :: b0 :: b1 :: b2 :: b3 :: rest).getD 5 0 = b1 from rfl,
    show (a0 :: a1 :: a2 :: a3 :: b0 :: b1 :: b2 :: b3 :: rest).getD 6 0 = b2 from rfl,
    show (a0 :: a1 :: a2 :: a3 :: b0 :: b1 :: b2 :: b3 :: rest).getD 7 0 = b3 from rfl,
    hn, hs]
  rw [if_neg (by
    rw [hlen, hrest]
    unfold ECC_DATA_SHARDS ECC_PARITY_SHARDS
    omega)]
  have hdrop : (fun i => some (((a0 :: a1 :: a2 :: a3 :: b0 :: b1 :: b2 :: b3 :: rest).drop
      (8 + i * s)).take s)) = fun i => some ((rest.drop (i * s)).take s) :=
    funext fun i => by rw [listDrop_cons8]
  rw [hdrop]
  have hall : rsLibReconstruct ((List.range (ECC_DATA_SHARDS + ECC_PARITY_SHARDS)).map
      fun i => some ((rest.drop (i * s)).take s)) =
      .ok ((List.range (ECC_DATA_SHARDS + ECC_PARITY_SHARDS)).map
        fun i => some ((rest.drop (i * s)).take s)) := by
    unfold rsLibReconstruct
    rw [if_pos]
    simp [List.all_eq_true]
  rw [hall]
  simp only
  have htake : (((List.range (ECC_DATA_SHARDS + ECC_PARITY_SHARDS)).map
      fun i => some ((rest.drop (i * s)).take s)).take ECC_DATA_SHARDS)
      = (List.range 8).map fun i => some ((rest.drop (i * s)).take s) := by
    unfold ECC_DATA_SHARDS ECC_PARITY_SHARDS
    rw [← List.map_take, List.take_range]
    norm_num
  rw [htake]
  rw [List.map_map]
  have hcomp : ((fun o : Option (List Nat) => o.getD []) ∘
      fun i => some ((rest.drop (i * s)).take s))
      = fun i => (rest.drop (i * s)).take s := funext fun i => rfl
  rw [hcomp, flatten_slices rest s 8 (by omega)]
  rw [List.take_take]
  rw [Nat.min_eq_left hn8]

/-- Value of `rsEncode` on a nonempty input, split into header, data region
and parity region. -/
theorem rsEncode_eq (x : List Nat) (hx : x ≠ []) :
    rsEncode x = .ok (toBE32 (x.length % 2 ^ 32) ++ (toBE32 (rsShardSize x % 2 ^ 32) ++
      (rsPadded x ++ ((List.range 4).map (rsParityShard
        ((List.range 8).map (rsDataShard x (rsShardSize x))) (rsShardSize x))).flatten))) := by
  have hs1 : 1 ≤ rsShardSize x := (rsShardSize_bounds x).2 hx
  unfold rsEncode rsLibEncode
  simp only
  rw [show (x.length + ECC_DATA_SHARDS - 1) / ECC_DATA_SHARDS = rsShardSize x from rfl]
  rw [if_neg (by omega)]
  have hlen8 : ((List.range ECC_DATA_SHARDS).map (rsDataShard x (rsShardSize x))).length
      = ECC_DATA_SHARDS := by simp
  have htake : (((List.range ECC_DATA_SHARDS).map (rsDataShard x (rsShardSize x))) ++
      ((List.range ECC_PARITY_SHARDS).map fun _ => List.replicate (rsShardSize x) 0)).take
        ECC_DATA_SHARDS
      = (List.range ECC_DATA_SHARDS).map (rsDataShard x (rsShardSize x)) := by
    have hta := listTake_append_length
      ((List.range ECC_DATA_SHARDS).map (rsDataShard x (rsShardSize x)))
      ((List.range ECC_PARITY_SHARDS).map fun _ => List.replicate (rsShardSize x) 0)
    rw [hlen8] at hta
    exact hta
  simp only [htake]
  rw [List.flatten_append]
  rw [show ECC_DATA_SHARDS = 8 from rfl, show ECC_PARITY_SHARDS = 4 from rfl]
  rw [rsDataShards_flatten]

/-- Length of the parity region produced by the spec-modelled library. -/
theorem rsParity_length (x : List Nat) :
    (((List.range 4).map (rsParityShard
      ((List.range 8).map (rsDataShard x (rsShardSize x))) (rsShardSize x))).flatten).length
      = 4 * rsShardSize x := by
  rw [List.length_flatten]
  rw [List.map_map]
  have : ((List.length ∘ rsParityShard ((List.range 8).map (rsDataShard x (rsShardSize x)))
      (rsShardSize x))) = fun _ : Nat => rsShardSize x := by
    funext j
    simp [rsParityShard]
  rw [this]
  simp [List.map_const']
  omega

/-- Claim C2, counterexample: the claim says zeroing any subset of at most 4
of the 12 shards of an encoded block still decodes to the original input.
Take `x = [1,2,3,4,5,6,7,8]` (shard size 1) and zero the single data shard 0
(the byte at offset 8, right after the 8-byte header): `decode` succeeds but
returns `[0,2,3,4,5,6,7,8] ≠ x`, because `decode` presents every shard as
present and `reconstruct` is then a no-op. -/
theorem c2_rs_erasure_counterexample :
    isOkE (rsEncode [1, 2, 3, 4, 5, 6, 7, 8]) = true ∧
    rsDecode (((rsEncode [1, 2, 3, 4, 5, 6, 7, 8]).toOption.getD []).set 8 0)
      = .ok [0, 2, 3, 4, 5, 6, 7, 8] ∧
    ([0, 2, 3, 4, 5, 6, 7, 8] : List Nat) ≠ [1, 2, 3, 4, 5, 6, 7, 8] := by
  refine ⟨by decide, by decide, by decide⟩

/-- Claim C2 as amended: `decode` never reconstructs anything, because it
marks all 12 shards as present; zeroing is therefore tolerated only on the
4 parity shards.  For every nonempty `x` (with length below `2^32`),
`encode x` is the header followed by the padded data region and a parity
region of `4·s` bytes, and replacing the entire parity region by arbitrary
bytes of the same length (in particular zeroing any subset of the 4 parity
shards) still makes `decode` return `x`; zeroing a data shard can change
the result (see the counterexample). -/
theorem c2_rs_parity_only_tolerated (x junk : List Nat) (hx : x ≠ [])
    (h32 : x.length < 2 ^ 32) (hj : junk.length = 4 * rsShardSize x) :
    (∃ parity : List Nat, parity.length = 4 * rsShardSize x ∧
      rsEncode x = .ok (toBE32 x.length ++ (toBE32 (rsShardSize x) ++ (rsPadded x ++ parity)))) ∧
    rsDecode (toBE32 x.length ++ (toBE32 (rsShardSize x) ++ (rsPadded x ++ junk))) = .ok x := by
  have hs1 : 1 ≤ rsShardSize x := (rsShardSize_bounds x).2 hx
  have hx8 : x.length ≤ 8 * rsShardSize x := (rsShardSize_bounds x).1
  have hs32 : rsShardSize x < 2 ^ 32 := by
    unfold rsShardSize ECC_DATA_SHARDS
    omega
  constructor
  · refine ⟨((List.range 4).map (rsParityShard
      ((List.range 8).map (rsDataShard x (rsShardSize x))) (rsShardSize x))).flatten,
      rsParity_length x, ?_⟩
    rw [rsEncode_eq x hx, Nat.mod_eq_of_lt h32, Nat.mod_eq_of_lt hs32]
  · have hshape := rsDecode_shape (x.length / 2 ^ 24 % 256) (x.length / 2 ^ 16 % 256)
      (x.length / 2 ^ 8 % 256) (x.length % 256)
      (rsShardSize x / 2 ^ 24 % 256) (rsShardSize x / 2 ^ 16 % 256)
      (rsShardSize x / 2 ^ 8 % 256) (rsShardSize x % 256)
      x.length (rsShardSize x) (rsPadded x ++ junk)
      (readBE32_toBE32 x.length h32) (readBE32_toBE32 (rsShardSize x) hs32)
      (by rw [List.length_append, rsPadded_length, hj]; omega) hx8
    have hin : toBE32 x.length ++ (toBE32 (rsShardSize x) ++ (rsPadded x ++ junk))
        = (x.length / 2 ^ 24 % 256) :: (x.length / 2 ^ 16 % 256) :: (x.length / 2 ^ 8 % 256)
          :: (x.length % 256) :: (rsShardSize x / 2 ^ 24 % 256) :: (rsShardSize x / 2 ^ 16 % 256)
          :: (rsShardSize x / 2 ^ 8 % 256) :: (rsShardSize x % 256) :: (rsPadded x ++ junk) := by
      simp [toBE32]
    rw [hin, hshape]
    have hx' : (rsPadded x ++ junk).take x.length = x := by
      rw [List.take_append_eq_append_take]
      rw [show x.length - (rsPadded x).length = 0 from by rw [rsPadded_length]; omega]
      unfold rsPadded
      rw [List.take_append_eq_append_take]
      simp
    rw [hx']

/-- Witness for the amended C2 at `x = [9]`, zeroing all four parity shards
(shard size 1, so the parity region is four zero bytes). -/
theorem c2_rs_parity_only_tolerated_witness :
    (([9] : List Nat) ≠ [] ∧ ([9] : List Nat).length < 2 ^ 32 ∧
      ([0, 0, 0, 0] : List Nat).length = 4 * rsShardSize [9]) ∧
    ((∃ parity : List Nat, parity.length = 4 * rsShardSize [9] ∧
      rsEncode [9] = .ok (toBE32 ([9] : List Nat).length ++ (toBE32 (rsShardSize [9]) ++
        (rsPadded [9] ++ parity)))) ∧
     rsDecode (toBE32 ([9] : List Nat).length ++ (toBE32 (rsShardSize [9]) ++
        (rsPadded [9] ++ [0, 0, 0, 0]))) = .ok [9]) :=
  ⟨⟨by decide, by decide, by decide⟩,
    c2_rs_parity_only_tolerated [9] [0, 0, 0, 0] (by decide) (by decide) (by decide)⟩

/-- Claim C10: `ReedSolomonCodec::encode` applied to the empty byte sequence
returns an `ErrorCorrection` error (shard size 0, and the modelled library
rejects empty shards); for every non-empty input it succeeds. -/
theorem c10_encode_empty_rejected :
    rsEncode [] = .error .errorCorrection ∧
    ∀ x : List Nat, x ≠ [] → isOkE (rsEncode x) = true := by
  constructor
  · decide
  · intro x hx
    rw [rsEncode_eq x hx]
    rfl

/-- Witness for C10's universally quantified success half at `x = [1]`. -/
theorem c10_encode_empty_rejected_witness :
    (([1] : List Nat) ≠ []) ∧ isOkE (rsEncode [1]) = true :=
  ⟨by decide, c10_encode_empty_rejected.2 [1] (by decide)⟩

theorem foldl_two_appends {α β : Type} (g h : α → List β) (data : List α) :
    ∀ init : List β, data.foldl (fun acc b => acc ++ g b ++ h b) init
      = init ++ data.flatMap fun b => g b ++ h b := by
  induction data with
  | nil =>
    intro init
    simp
  | cons b t ih =>
    intro init
    rw [List.foldl_cons, ih, List.flatMap_cons]
    simp

/-- Decomposition of `modulate` into its four regions (shared helper). -/
theorem modulate_decomposition (cfg : Config) (sin2pi : ℚ → ℚ) (data : List Nat) :
    modulate cfg sin2pi data =
      generateWakeUpTone cfg sin2pi ++ List.replicate (silenceSamples cfg) (0 : ℚ)
        ++ (data.flatMap fun b =>
            generateTone cfg sin2pi (freqAt cfg ((b >>> 4) &&& 15)) cfg.symbol_duration_ms
              ++ generateTone cfg sin2pi (freqAt cfg (b &&& 15)) cfg.symbol_duration_ms)
        ++ generateWakeUpTone cfg sin2pi := by
  unfold modulate
  rw [foldl_two_appends]

/-- Claim C6: for every byte sequence, `modulate` is exactly the wake-up tone
(100 ms at 18 500 Hz), then 960 zero samples, then for each byte the tone of
the high nibble followed by the tone of the low nibble with nothing in
between, then a trailing wake-up tone identical to the leading one. -/
theorem c6_modulate_structure (cfg : Config) (sin2pi : ℚ → ℚ) (data : List Nat)
    (hsr : cfg.sample_rate = 48000) :
    modulate cfg sin2pi data =
      generateTone cfg sin2pi WAKE_UP_FREQUENCY WAKE_UP_DURATION_MS
        ++ List.replicate 960 (0 : ℚ)
        ++ (data.flatMap fun b =>
            generateTone cfg sin2pi (freqAt cfg ((b >>> 4) &&& 15)) cfg.symbol_duration_ms
              ++ generateTone cfg sin2pi (freqAt cfg (b &&& 15)) cfg.symbol_duration_ms)
        ++ generateTone cfg sin2pi WAKE_UP_FREQUENCY WAKE_UP_DURATION_MS := by
  rw [modulate_decomposition]
  unfold generateWakeUpTone
  rw [show silenceSamples cfg = 960 from by unfold silenceSamples; rw [hsr]]

/-- Witness for C6 at the default config and the byte `0xAB`. -/
theorem c6_modulate_structure_witness :
    defaultConfig.sample_rate = 48000 ∧
    modulate defaultConfig (fun _ => 0) [171] =
      generateTone defaultConfig (fun _ => 0) WAKE_UP_FREQUENCY WAKE_UP_DURATION_MS
        ++ List.replicate 960 (0 : ℚ)
        ++ (([171] : List Nat).flatMap fun b =>
            generateTone defaultConfig (fun _ => 0) (freqAt defaultConfig ((b >>> 4) &&& 15))
              defaultConfig.symbol_duration_ms
              ++ generateTone defaultConfig (fun _ => 0) (freqAt defaultConfig (b &&& 15))
                defaultConfig.symbol_duration_ms)
        ++ generateTone defaultConfig (fun _ => 0) WAKE_UP_FREQUENCY WAKE_UP_DURATION_MS :=
  ⟨rfl, c6_modulate_structure defaultConfig (fun _ => 0) [171] rfl⟩

theorem fadeAt_bounds (n fs i : Nat) (hfs : fs ≤ n) (hfs0 : 0 < fs) (hi : i < n) :
    0 ≤ fadeAt n fs i ∧ fadeAt n fs i ≤ 1 := by
  unfold fadeAt
  have hfsq : (0 : ℚ) < (fs : ℚ) := by exact_mod_cast hfs0
  split_ifs with h1 h2
  · refine ⟨by positivity, ?_⟩
    rw [div_le_one hfsq]
    exact_mod_cast le_of_lt h1
  · refine ⟨by positivity, ?_⟩
    rw [div_le_one hfsq]
    have : n - i ≤ fs := by omega
    exact_mod_cast this
  · exact ⟨by norm_num, le_refl 1⟩

theorem generateTone_bounded (cfg : Config) (sin2pi : ℚ → ℚ) (freq : ℚ) (durationMs : Nat)
    (hfs : fadeSamples cfg ≤ numSamples cfg durationMs) (hfs0 : 0 < fadeSamples cfg)
    (hv0 : 0 ≤ cfg.volume) (hv1 : cfg.volume ≤ 1) (hsin : ∀ q : ℚ, |sin2pi q| ≤ 1) :
    ∀ smp ∈ generateTone cfg sin2pi freq durationMs, |smp| ≤ 1 := by
  intro smp hmem
  unfold generateTone at hmem
  rw [List.mem_map] at hmem
  obtain ⟨i, hi, rfl⟩ := hmem
  have hiN : i < numSamples cfg durationMs := List.mem_range.mp hi
  obtain ⟨hf0, hf1⟩ := fadeAt_bounds (numSamples cfg durationMs) (fadeSamples cfg) i hfs hfs0 hiN
  rw [abs_mul, abs_mul]
  have hs := hsin (freq * (i : ℚ) / (cfg.sample_rate : ℚ))
  have hvv : |cfg.volume| ≤ 1 := by rw [abs_of_nonneg hv0]; exact hv1
  have hff : |fadeAt (numSamples cfg durationMs) (fadeSamples cfg) i| ≤ 1 := by
    rw [abs_of_nonneg hf0]
    exact hf1
  calc |sin2pi (freq * (i : ℚ) / (cfg.sample_rate : ℚ))| * |cfg.volume|
        * |fadeAt (numSamples cfg durationMs) (fadeSamples cfg) i|
      ≤ 1 * 1 * 1 := by
        apply mul_le_mul _ hff (abs_nonneg _) (by norm_num)
        exact mul_le_mul hs hvv (abs_nonneg _) (by norm_num)
    _ = 1 := by norm_num

/-- Claim C7: with `sample_rate = 48000`, a symbol duration in the spec's
acceptable range, `volume ∈ [0, 1]` and the sine bounded by 1 in magnitude
(true of `f32::sin`), every sample of `modulate` lies in `[-1, 1]`: tone
samples are `sin · volume · fade` with `fade ∈ [0, 1]`, and the guard
silence is zero. -/
theorem c7_modulate_bounded (cfg : Config) (sin2pi : ℚ → ℚ) (data : List Nat)
    (hsr : cfg.sample_rate = 48000)
    (hd5 : 5 ≤ cfg.symbol_duration_ms) (hd200 : cfg.symbol_duration_ms ≤ 200)
    (hv0 : 0 ≤ cfg.volume) (hv1 : cfg.volume ≤ 1) (hsin : ∀ q : ℚ, |sin2pi q| ≤ 1) :
    ∀ smp ∈ modulate cfg sin2pi data, -1 ≤ smp ∧ smp ≤ 1 := by
  intro smp hmem
  have hfs240 : fadeSamples cfg = 240 := by
    unfold fadeSamples
    rw [hsr]
  have habs : |smp| ≤ 1 := by
    rw [modulate_decomposition] at hmem
    rw [List.append_assoc, List.append_assoc] at hmem
    rcases List.mem_append.mp hmem with hw | hrest
    · refine generateTone_bounded cfg sin2pi _ _ ?_ ?_ hv0 hv1 hsin smp hw
      · unfold numSamples WAKE_UP_DURATION_MS
        rw [hfs240, hsr]
        omega
      · rw [hfs240]
        norm_num
    · rcases List.mem_append.mp hrest with hz | hrest2
      · rw [List.eq_of_mem_replicate hz]
        norm_num
      · rcases List.mem_append.mp hrest2 with hdat | hw2
        · rw [List.mem_flatMap] at hdat
          obtain ⟨b, _, hb⟩ := hdat
          have htone : ∀ f : ℚ, smp ∈ generateTone cfg sin2pi f cfg.symbol_duration_ms →
              |smp| ≤ 1 := by
            intro f hf
            refine generateTone_bounded cfg sin2pi _ _ ?_ ?_ hv0 hv1 hsin smp hf
            · unfold numSamples
              rw [hfs240, hsr]
              omega
            · rw [hfs240]
              norm_num
          rcases List.mem_append.mp hb with h1 | h2
          · exact htone _ h1
          · exact htone _ h2
        · refine generateTone_bounded cfg sin2pi _ _ ?_ ?_ hv0 hv1 hsin smp hw2
          · unfold numSamples WAKE_UP_DURATION_MS
            rw [hfs240, hsr]
            omega
          · rw [hfs240]
            norm_num
  exact abs_le.mp habs

/-- Witness for C7 at the default config (volume one half), a constant sine
stand-in bounded by 1, and the single byte `0x12`. -/
theorem c7_modulate_bounded_witness :
    (defaultConfig.sample_rate = 48000 ∧ 5 ≤ defaultConfig.symbol_duration_ms ∧
      defaultConfig.symbol_duration_ms ≤ 200 ∧ (0 : ℚ) ≤ defaultConfig.volume ∧
      defaultConfig.volume ≤ 1 ∧ ∀ q : ℚ, |(fun _ : ℚ => (1 : ℚ)) q| ≤ 1) ∧
    ∀ smp ∈ modulate defaultConfig (fun _ : ℚ => (1 : ℚ)) [18], -1 ≤ smp ∧ smp ≤ 1 :=
  ⟨⟨rfl, by decide, by decide, by norm_num [defaultConfig], by norm_num [defaultConfig],
      fun q => by norm_num⟩,
    c7_modulate_bounded defaultConfig (fun _ : ℚ => (1 : ℚ)) [18] rfl (by decide) (by decide)
      (by norm_num [defaultConfig]) (by norm_num [defaultConfig]) (fun q => by norm_num)⟩

theorem detectWakeUpGo_eq_find (d : MFSKDemodulator) (mag : Mag) (samples : List ℚ) :
    ∀ offs : List Nat, detectWakeUpGo d mag samples offs
      = (offs.find? (wakeTrigger d mag samples)).map (· + wakeSamples d.config) := by
  intro offs
  induction offs with
  | nil => rfl
  | cons i rest ih =>
    by_cases h : wakeTrigger d mag samples i
    · simp [detectWakeUpGo, List.find?_cons, h]
    · simp [detectWakeUpGo, List.find?_cons, h, ih]

/-- Claim C3 as amended.  With `sample_rate = 48000` the scan uses a 2400
sample window sliding by 600.  (a) `detect_wake_up` returns, for the first
visited offset `i` whose window triggers, `some (i + 4800)`; (b) the visited
offsets are the multiples of 600 with `i + 2400 < len(samples)` — strictly
less, not `≤` as the claim states, because Rust's
`0..len.saturating_sub(window)` range is exclusive; (c) consequently an
input of exactly 2400 samples is never examined and yields `none`, not
`Some 4800`. -/
theorem c3_detect_wake_up_scan (d : MFSKDemodulator) (mag : Mag) (samples : List ℚ)
    (hsr : d.config.sample_rate = 48000) :
    detectWakeUp d mag samples
      = ((wakeOffsets samples.length 2400 600).find? (wakeTrigger d mag samples)).map
          (· + 4800) ∧
    (∀ i, i ∈ wakeOffsets samples.length 2400 600
      ↔ i % 600 = 0 ∧ i + 2400 < samples.length) ∧
    (samples.length = 2400 → detectWakeUp d mag samples = none) := by
  have hw : windowSizeHalfWake d.config = 2400 := by
    unfold windowSizeHalfWake WAKE_UP_DURATION_MS
    rw [hsr]
  have hws : wakeSamples d.config = 4800 := by
    unfold wakeSamples WAKE_UP_DURATION_MS
    rw [hsr]
  have hmain : detectWakeUp d mag samples
      = ((wakeOffsets samples.length 2400 600).find? (wakeTrigger d mag samples)).map
          (· + 4800) := by
    unfold detectWakeUp
    rw [hw, show (2400 : Nat) / 4 = 600 from rfl, detectWakeUpGo_eq_find, hws]
  refine ⟨hmain, ?_, ?_⟩
  · intro i
    unfold wakeOffsets
    simp only [List.mem_map, List.mem_range]
    constructor
    · rintro ⟨j, hj, rfl⟩
      constructor
      · exact Nat.mul_mod_left j 600
      · omega
    · rintro ⟨h0, hlt⟩
      exact ⟨i / 600, by omega, by omega⟩
  · intro hlen
    rw [hmain, hlen]
    rfl

/-- Witness for the amended C3 at the fresh default demodulator, a zero
magnitude oracle and an empty buffer. -/
theorem c3_detect_wake_up_scan_witness :
    (MFSKDemodulator.new defaultConfig).config.sample_rate = 48000 ∧
    (detectWakeUp (MFSKDemodulator.new defaultConfig) (fun _ _ => 0) []
      = ((wakeOffsets ([] : List ℚ).length 2400 600).find?
          (wakeTrigger (MFSKDemodulator.new defaultConfig) (fun _ _ => 0) [])).map
            (· + 4800) ∧
    (∀ i, i ∈ wakeOffsets ([] : List ℚ).length 2400 600
      ↔ i % 600 = 0 ∧ i + 2400 < ([] : List ℚ).length) ∧
    (([] : List ℚ).length = 2400
      → detectWakeUp (MFSKDemodulator.new defaultConfig) (fun _ _ => 0) [] = none)) :=
  ⟨rfl, c3_detect_wake_up_scan (MFSKDemodulator.new defaultConfig) (fun _ _ => 0) [] rfl⟩

/-- Claim C3, counterexample: on an input of exactly 2400 samples whose
single 2400-sample window triggers (shown by the first conjunct: the window
at offset 0 satisfies the code's own trigger), the claim demands
`Some 4800`; `detect_wake_up` scans `0..(2400 - 2400) = 0..0`, examines no
window at all, and returns `none`. -/
theorem c3_detect_wake_up_counterexample :
    wakeTrigger (MFSKDemodulator.new defaultConfig) magWakeOnly
      (List.replicate 2400 (0 : ℚ)) 0 = true ∧
    detectWakeUp (MFSKDemodulator.new defaultConfig) magWakeOnly
      (List.replicate 2400 (0 : ℚ)) = none := by
  constructor
  · have hfreq : (MFSKDemodulator.new defaultConfig).frequencies
        = [1000, 1100, 1200, 1300, 1400, 1500, 1600, 1700, 1800, 1900,
           2000, 2100, 2200, 2300, 2400, 2500] := by
      show mfskFrequencies defaultConfig = _
      unfold mfskFrequencies defaultConfig
      simp [List.range_succ, TransmissionMode.base_frequency, TransmissionMode.frequency_step]
      norm_num
    unfold wakeTrigger
    rw [hfreq]
    unfold magWakeOnly WAKE_UP_FREQUENCY
    norm_num
  · unfold detectWakeUp
    rw [show wakeOffsets (List.replicate 2400 (0 : ℚ)).length
        (windowSizeHalfWake (MFSKDemodulator.new defaultConfig).config)
        (windowSizeHalfWake (MFSKDemodulator.new defaultConfig).config / 4) = [] from by
      rw [List.length_replicate]
      rfl]
    rfl

theorem demodLoop_planner (cfg : Config) (fr : List ℚ) (p p' : Nat) (mag : Mag)
    (samples : List ℚ) (symbolSz : Nat) :
    ∀ fuel pos nibbles,
      demodLoop ⟨cfg, fr, p⟩ mag samples symbolSz fuel pos nibbles
        = demodLoop ⟨cfg, fr, p'⟩ mag samples symbolSz fuel pos nibbles := by
  intro fuel
  induction fuel with
  | zero =>
    intro pos nibbles
    rfl
  | succ f ih =>
    intro pos nibbles
    simp only [demodLoop]
    by_cases h1 : pos + symbolSz ≤ samples.length
    · rw [if_pos h1, if_pos h1]
      have htr : demodTrigger (⟨cfg, fr, p⟩ : MFSKDemodulator) mag
          ((samples.drop pos).take symbolSz)
          = demodTrigger (⟨cfg, fr, p'⟩ : MFSKDemodulator) mag
            ((samples.drop pos).take symbolSz) := rfl
      rw [htr]
      by_cases h2 : demodTrigger (⟨cfg, fr, p'⟩ : MFSKDemodulator) mag
          ((samples.drop pos).take symbolSz)
      · rw [if_pos h2, if_pos h2]
      · rw [if_neg h2, if_neg h2]
        rw [show detectSymbol (⟨cfg, fr, p⟩ : MFSKDemodulator) mag
            ((samples.drop pos).take symbolSz)
            = detectSymbol (⟨cfg, fr, p'⟩ : MFSKDemodulator) mag
              ((samples.drop pos).take symbolSz) from rfl]
        exact ih (pos + symbolSz) _
    · rw [if_neg h1, if_neg h1]

theorem detectWakeUpGo_planner (cfg : Config) (fr : List ℚ) (p p' : Nat) (mag : Mag)
    (samples : List ℚ) :
    ∀ offs : List Nat, detectWakeUpGo ⟨cfg, fr, p⟩ mag samples offs
      = detectWakeUpGo ⟨cfg, fr, p'⟩ mag samples offs := by
  intro offs
  induction offs with
  | nil => rfl
  | cons i rest ih =>
    simp only [detectWakeUpGo]
    rw [show wakeTrigger (⟨cfg, fr, p⟩ : MFSKDemodulator) mag samples i
        = wakeTrigger (⟨cfg, fr, p'⟩ : MFSKDemodulator) mag samples i from rfl]
    by_cases h : wakeTrigger (⟨cfg, fr, p'⟩ : MFSKDemodulator) mag samples i
    · rw [if_pos h, if_pos h]
    · rw [if_neg h, if_neg h]
      exact ih

theorem detectWakeUp_planner (cfg : Config) (fr : List ℚ) (p p' : Nat) (mag : Mag)
    (samples : List ℚ) :
    detectWakeUp ⟨cfg, fr, p⟩ mag samples = detectWakeUp ⟨cfg, fr, p'⟩ mag samples := by
  unfold detectWakeUp
  exact detectWakeUpGo_planner cfg fr p p' mag samples _

theorem demodulate_snd (d : MFSKDemodulator) (mag : Mag) (samples : List ℚ) :
    (demodulate d mag samples).2 = d := by
  unfold demodulate
  split
  · rfl
  · rfl

theorem demodulate_fst_planner (cfg : Config) (fr : List ℚ) (p p' : Nat) (mag : Mag)
    (samples : List ℚ) :
    (demodulate ⟨cfg, fr, p⟩ mag samples).1 = (demodulate ⟨cfg, fr, p'⟩ mag samples).1 := by
  unfold demodulate
  rw [detectWakeUp_planner cfg fr p p' mag samples]
  cases detectWakeUp ⟨cfg, fr, p'⟩ mag samples with
  | none => rfl
  | some sp =>
    simp only
    rw [demodLoop_planner cfg fr p p' mag samples]

/-- Claim C8: `demodulate` is deterministic across invocations of the same
demodulator and the mutable FFT-planner state never influences the output:
the call leaves the demodulator unchanged, a second call on the resulting
state returns the same output, and two demodulators differing only in the
planner state produce the same output.  (`0 < symbolSamples` scopes the
claim to symbol durations for which the Rust loop terminates.) -/
theorem c8_demodulate_deterministic (cfg : Config) (fr : List ℚ) (p p' : Nat) (mag : Mag)
    (samples : List ℚ) (_hsym : 0 < symbolSamples cfg) :
    (demodulate ⟨cfg, fr, p⟩ mag samples).2 = ⟨cfg, fr, p⟩ ∧
    (demodulate ((demodulate ⟨cfg, fr, p⟩ mag samples).2) mag samples).1
      = (demodulate ⟨cfg, fr, p⟩ mag samples).1 ∧
    (demodulate ⟨cfg, fr, p⟩ mag samples).1 = (demodulate ⟨cfg, fr, p'⟩ mag samples).1 := by
  refine ⟨demodulate_snd _ mag samples, ?_, demodulate_fst_planner cfg fr p p' mag samples⟩
  rw [demodulate_snd _ mag samples]

/-- Witness for C8 at the default config, frequencies and planner states 0
and 1, a zero magnitude oracle and an empty buffer. -/
theorem c8_demodulate_deterministic_witness :
    0 < symbolSamples defaultConfig ∧
    ((demodulate ⟨defaultConfig, mfskFrequencies defaultConfig, 0⟩ (fun _ _ => 0) []).2
        = ⟨defaultConfig, mfskFrequencies defaultConfig, 0⟩ ∧
    (demodulate ((demodulate ⟨defaultConfig, mfskFrequencies defaultConfig, 0⟩
        (fun _ _ => 0) []).2) (fun _ _ => 0) []).1
      = (demodulate ⟨defaultConfig, mfskFrequencies defaultConfig, 0⟩ (fun _ _ => 0) []).1 ∧
    (demodulate ⟨defaultConfig, mfskFrequencies defaultConfig, 0⟩ (fun _ _ => 0) []).1
      = (demodulate ⟨defaultConfig, mfskFrequencies defaultConfig, 1⟩ (fun _ _ => 0) []).1) :=
  ⟨by decide, c8_demodulate_deterministic defaultConfig (mfskFrequencies defaultConfig) 0 1
    (fun _ _ => 0) [] (by decide)⟩

theorem compress_ne_nil (data : List Nat) : compress data ≠ [] := by
  intro h
  have := compress_length data
  rw [h] at this
  simp at this
  split_ifs at this <;> omega

theorem rsEncode_ok_length (x : List Nat) (hx : x ≠ []) :
    ∃ E, rsEncode x = .ok E ∧ E.length = 8 + 12 * rsShardSize x := by
  refine ⟨_, rsEncode_eq x hx, ?_⟩
  have hp := rsParity_length x
  simp only [List.length_append, rsPadded_length, hp, toBE32, List.length_cons,
    List.length_nil]
  omega

/-- Claim C1 as amended: the sender pipeline succeeds exactly when the
ECC-encoded compressed payload — `8 + 12·ceil(len(compress(data))/8)`
bytes — fits in `MAX_PAYLOAD_SIZE = 1024`; the `Packet::new` bound is
checked against that expanded payload, not against the user data, so a
1024-byte incompressible input is rejected (see the counterexample) while
small or highly compressible inputs are accepted. -/
theorem c1_sender_success_iff (cfg : Config) (sin2pi : ℚ → ℚ) (data : List Nat) :
    isOkE (sendPipeline cfg sin2pi data) = true
      ↔ 8 + 12 * (((compress data).length + 7) / 8) ≤ 1024 := by
  have hne := compress_ne_nil data
  obtain ⟨E, hE, hElen⟩ := rsEncode_ok_length (compress data) hne
  have hss : rsShardSize (compress data) = ((compress data).length + 7) / 8 := by
    unfold rsShardSize ECC_DATA_SHARDS
    omega
  unfold sendPipeline
  rw [hE]
  simp only
  unfold Packet.new MAX_PAYLOAD_SIZE
  by_cases h : 8 + 12 * (((compress data).length + 7) / 8) ≤ 1024
  · rw [if_neg (by rw [hElen, hss]; omega)]
    simp [isOkE, h]
  · rw [if_pos (by rw [hElen, hss]; omega)]
    simp [isOkE, h]

/-- Claim C1, counterexample: the claim says the sender succeeds for every
payload of at most 1024 bytes and that a payload of exactly 1024 bytes
round-trips.  On this 1024-byte input the compressed payload is 1033 bytes,
the ECC block is `8 + 12·ceil(1033/8) = 1568` bytes, and `Packet::new`
rejects it as over `MAX_PAYLOAD_SIZE`: the sender fails with
`InvalidPacket` even though `len(data) = 1024 ≤ 1024`. -/
theorem c1_sender_1024_counterexample :
    x1024.length = 1024 ∧
    sendPipeline defaultConfig (fun _ => 0) x1024 = .error .invalidPacket := by
  have hlen : x1024.length = 1024 := by
    unfold x1024
    rw [List.length_flatMap]
    rw [show (List.length ∘ fun k : Nat => ([k / 256, k % 256] : List Nat)) = fun _ : Nat => 2
      from by funext k; simp]
    rw [List.map_const', List.sum_replicate]
    norm_num
  have hclen : (compress x1024).length = 1033 := by
    rw [compress_length, hlen]
    norm_num
  have hne := compress_ne_nil x1024
  obtain ⟨E, hE, hElen⟩ := rsEncode_ok_length (compress x1024) hne
  have hss : rsShardSize (compress x1024) = 130 := by
    unfold rsShardSize ECC_DATA_SHARDS
    rw [hclen]
  refine ⟨hlen, ?_⟩
  unfold sendPipeline
  rw [hE]
  simp only
  unfold Packet.new
  rw [if_pos (by rw [hElen, hss]; unfold MAX_PAYLOAD_SIZE; omega)]

end SonicPipe
